import Mathlib

/-!
Verification of the daily-task-collector pipeline
(`src/slack_task_organizer.py`) against its specification.

Python strings are modelled as lists of characters (`PyStr`), since Python
`len`, slicing and `split` operate on code points.  Each definition below
mirrors one piece of the source:

* `splitBlank`        — `organized_tasks.split('\n\n')`
* `lstrip`/`rstrip`/`pyStrip` — `str.strip()` (whitespace at both ends)
* `makeHeader`        — the f-string header of `send_dm_to_self`
* `packLoop`          — the greedy section-packing loop of `send_dm_to_self`
* `splitMessages`     — the `messages` list built by `send_dm_to_self`
* `contMarker` / `addMarkers` / `sentMessages` — the send loop that prefixes
  continuation markers onto chunks 1..N-1
* `get_mentions_last_24h`, `extractMention` — the mention collector
* `analyze_with_claude`, `buildPrompt`      — the triage formatter
* `main`              — the top-level pipeline, with external endpoints
  supplied by an `Env` record and observable effects collected in a
  `RunTrace`.
-/

/-- Python strings as sequences of code points. -/
abbrev PyStr := List Char

/-- `max_length = 3900` from `send_dm_to_self`. -/
def max_length : Nat := 3900

/-- The blank-line separator `"\n\n"` used by the splitter. -/
def blankSep : PyStr := ['\n', '\n']

/-- Characters removed by Python `str.strip()` (ASCII whitespace; the
source text only ever contains these whitespace characters). -/
def isPySpace (c : Char) : Bool :=
  c = ' ' || c = '\t' || c = '\n' || c = '\r' || c = '\x0b' || c = '\x0c'

/-- Left part of Python `str.strip()`. -/
def lstrip (s : PyStr) : PyStr := s.dropWhile isPySpace

/-- Right part of Python `str.strip()`. -/
def rstrip (s : PyStr) : PyStr := (s.reverse.dropWhile isPySpace).reverse

/-- Python `str.strip()`: whitespace removed from both ends. -/
def pyStrip (s : PyStr) : PyStr := rstrip (lstrip s)

/-- Python `s.split('\n\n')`: split on each non-overlapping occurrence of
a blank line, scanning left to right. -/
def splitBlank : PyStr → List PyStr
  | [] => [[]]
  | [c] => [[c]]
  | c₁ :: c₂ :: rest =>
    if c₁ = '\n' ∧ c₂ = '\n' then
      [] :: splitBlank rest
    else
      match splitBlank (c₂ :: rest) with
      | [] => [[c₁]]
      | s :: ss => (c₁ :: s) :: ss

/-- The literal part of the header f-string in `send_dm_to_self`. -/
def headerPre : PyStr := "📋 タスク整理レポート (".toList

/-- `header = f"📋 タスク整理レポート ({timestamp})\n\n"`. -/
def makeHeader (timestamp : PyStr) : PyStr :=
  headerPre ++ timestamp ++ ")".toList ++ blankSep

/-- The greedy packing loop of `send_dm_to_self`: returns the list of
flushed (stripped) buffers together with the final `current_message`. -/
def packLoop : List PyStr → PyStr → List PyStr → List PyStr × PyStr
  | [], current, messages => (messages, current)
  | s :: rest, current, messages =>
    if current.length + s.length + 2 ≤ max_length then
      packLoop rest (current ++ s ++ blankSep) messages
    else
      packLoop rest (s ++ blankSep) (messages ++ [pyStrip current])

/-- The `messages` list assembled by `send_dm_to_self` before the send
loop: a single `header + organized_tasks` message when the report fits,
otherwise the greedy section packing. -/
def splitMessages (header report : PyStr) : List PyStr :=
  if report.length ≤ max_length then [header ++ report]
  else if pyStrip (packLoop (splitBlank report) header []).2 ≠ [] then
    (packLoop (splitBlank report) header []).1
      ++ [pyStrip (packLoop (splitBlank report) header []).2]
  else (packLoop (splitBlank report) header []).1

/-- `f"（続き {i+1}/{total}）\n\n"`, the continuation marker prepended to
chunk `i` (0-indexed, `i > 0`). -/
def contMarker (i total : Nat) : PyStr :=
  "（続き ".toList ++ (toString (i + 1)).toList ++ "/".toList ++
    (toString total).toList ++ "）".toList ++ blankSep

/-- The send loop `for i, msg in enumerate(messages)`: chunks after the
first get the continuation marker. -/
def addMarkers (total : Nat) : Nat → List PyStr → List PyStr
  | _, [] => []
  | i, m :: rest =>
    (if 0 < i then contMarker i total ++ m else m) :: addMarkers total (i + 1) rest

/-- The actual message texts passed to `chat_postMessage`, in order. -/
def sentMessages (header report : PyStr) : List PyStr :=
  addMarkers (splitMessages header report).length 0 (splitMessages header report)

/-- A fixed timestamp string (the strftime format always yields 16
characters). -/
def ts0 : PyStr := "2025/01/01 00:00".toList

/-- A concrete header built from `ts0`. -/
def hdr0 : PyStr := makeHeader ts0

/-! ## Mention collector (`get_mentions_last_24h`) -/

/-- One record of `result["messages"]["matches"]`.  `ts` is the numeric
value `float(match["ts"])`; optional fields model `match.get(...)`. -/
structure MatchRecord where
  text : String
  username : Option String
  channel_name : Option String
  ts : ℚ
  permalink : Option String

/-- The dictionary appended to `mentions` for an in-window match. -/
structure Mention where
  text : String
  user : String
  channel : String
  timestamp : ℚ
  permalink : String
deriving DecidableEq

/-- Field extraction with the default-value substitutions of the source
(`match.get("username", "Unknown User")`, etc.). -/
def extractMention (m : MatchRecord) : Mention :=
  { text := m.text
    user := m.username.getD "Unknown User"
    channel := m.channel_name.getD "Unknown Channel"
    timestamp := m.ts
    permalink := m.permalink.getD "" }

/-- The filtering loop of `get_mentions_last_24h`, over the platform's
match list and the precomputed `oldest` bound. -/
def get_mentions_last_24h (oldest : ℚ) (result_matches : List MatchRecord) : List Mention :=
  result_matches.foldl
    (fun acc m => if oldest ≤ m.ts then acc ++ [extractMention m] else acc) []

/-! ## Triage formatter (`analyze_with_claude`) -/

/-- The literal returned for an empty mention list. -/
def no_mentions_msg : String := "過去24時間にメンションはありませんでした。"

/-- The literal returned when the language-model call raises. -/
def analysis_error_msg : String := "タスクの分析中にエラーが発生しました。"

/-- `f"[{i+1}] {m['user']} in #{m['channel']}\n{m['text']}"`. -/
def formatMention (i : Nat) (m : Mention) : String :=
  "[" ++ toString (i + 1) ++ "] " ++ m.user ++ " in #" ++ m.channel ++ "\n" ++ m.text

/-- The `enumerate` over mentions used to build `mentions_text`. -/
def mentionBlocks : Nat → List Mention → List String
  | _, [] => []
  | i, m :: rest => formatMention i m :: mentionBlocks (i + 1) rest

/-- `mentions_text = "\n\n".join(...)`. -/
def mentions_text (ms : List Mention) : String :=
  String.intercalate "\n\n" (mentionBlocks 0 ms)

/-- The instructional template text preceding `{mentions_text}`. -/
def promptBefore : String := "以下は過去24時間にあなた宛に送られたSlackのメンション一覧です。
これらのメンションを以下の形式で要約してください：

【重要な指示】
- Slackで見やすいよう、シンプルな書式で出力してください
- **太字**は使わず、見出しに絵文字を使用してください
- メンションに言及する際は必ず「投稿者名（チャンネル名）」と「URL」を含めてください
- 箇条書きは「・」を使い、インデントで階層を表現してください

【要約の構成】
1. 📊 全体サマリー（1-2文で簡潔に）

2. 🔴 緊急対応が必要（優先度順、最大5件）
   各項目：投稿者（チャンネル）、内容の要点、URL

3. 🟡 重要だが緊急ではない（最大5件）
   各項目：投稿者（チャンネル）、内容の要点、URL

4. 📋 その他（カテゴリ別に簡潔に）
   ・質問・確認事項
   ・情報共有
   ・日程調整
   など

メンション一覧：
"

/-- The template text following `{mentions_text}` (the worked example). -/
def promptAfter : String := "

※出力例※
📊 全体サマリー
過去24時間で78件のメンションがありました。生成AI関連の運用ルール策定と経理関連の確認が急務です。

🔴 緊急対応が必要

• 生成AI API管理ルールの策定
  takasawa（pd-team）より
  API利用のクレカ申請フロー見直しが必要
  https://example.slack.com/...

• 委託販売契約書の提出
  tokita（経理）より
  監査法人対応のため契約書提示が必要
  https://example.slack.com/...

🟡 重要だが緊急ではない

• 松本さんキックオフMTG日程調整
  営業チームより
  11/4 15:00～で調整中
  https://example.slack.com/...

📋 その他

質問・確認事項：
• 経理関連の確認3件
• 人事評価制度の質問2件

情報共有：
• AIマーケティングカンファレンス動画共有
• 座席配置変更のお知らせ"

/-- The full prompt assembled by `analyze_with_claude`. -/
def buildPrompt (ms : List Mention) : String :=
  promptBefore ++ mentions_text ms ++ promptAfter

/-- `analyze_with_claude`, with the language-model completion endpoint
supplied as a function from prompt to response text or error.  The second
component counts calls issued to that endpoint. -/
def analyze_with_claude (llm : String → Except String String)
    (mentions : List Mention) : String × Nat :=
  if mentions.isEmpty then (no_mentions_msg, 0)
  else
    match llm (buildPrompt mentions) with
    | .ok t => (t, 1)
    | .error _ => (analysis_error_msg, 1)

/-! ## Pipeline (`main` and `send_dm_to_self`) -/

/-- The external endpoints of one run: identity check, search, the
language model, the wall clock, channel-open, and per-send success. -/
structure Env where
  authResult : Option String
  oldest : ℚ
  searchResult : Except String (List MatchRecord)
  llm : String → Except String String
  timestamp : PyStr
  openResult : Except String String
  sendOk : Nat → Bool

/-- The observable effects of one run: how many times each endpoint was
called, the texts passed to `chat_postMessage`, the payload handed to
`send_dm_to_self`, and whether the run aborted on the identity step. -/
structure RunTrace where
  searchCalls : Nat
  llmCalls : Nat
  openCalls : Nat
  sendCalls : Nat
  sendTexts : List PyStr
  deliveryPayload : Option String
  authFailed : Bool
deriving DecidableEq

/-- `get_my_user_id`: the identity endpoint's answer, `none` on a
platform error (the source returns `None` after logging). -/
def get_my_user_id (env : Env) : Option String := env.authResult

/-- The mention-collection step of `main`: one search call; a platform
error degrades to the empty list. -/
def collectMentions (env : Env) : List Mention × Nat :=
  match env.searchResult with
  | .ok ms => (get_mentions_last_24h env.oldest ms, 1)
  | .error _ => ([], 1)

/-- The send loop inside the `try` of `send_dm_to_self`: each message is
attempted in order; the first failing send raises and stops the loop. -/
def attemptedSends (ok : Nat → Bool) : Nat → List PyStr → List PyStr
  | _, [] => []
  | i, m :: rest => if ok i then m :: attemptedSends ok (i + 1) rest else [m]

/-- `send_dm_to_self`: one `conversations_open` call; on success the
split messages are sent in order.  Returns (open calls, attempted send
texts). -/
def send_dm_to_self (env : Env) (organized_tasks : String) : Nat × List PyStr :=
  match env.openResult with
  | .error _ => (1, [])
  | .ok _ =>
    (1, attemptedSends env.sendOk 0
      (sentMessages (makeHeader env.timestamp) organized_tasks.toList))

/-- `main`: the linear pipeline (`main` itself is reserved in Lean, hence
the name `mainRun`).  `if not user_id` in Python also treats the empty
string as a failure. -/
def mainRun (env : Env) : RunTrace :=
  match get_my_user_id env with
  | none =>
    { searchCalls := 0, llmCalls := 0, openCalls := 0, sendCalls := 0
      sendTexts := [], deliveryPayload := none, authFailed := true }
  | some uid =>
    if uid = "" then
      { searchCalls := 0, llmCalls := 0, openCalls := 0, sendCalls := 0
        sendTexts := [], deliveryPayload := none, authFailed := true }
    else
      let mc := collectMentions env
      let anl := analyze_with_claude env.llm mc.1
      let sd := send_dm_to_self env anl.1
      { searchCalls := mc.2, llmCalls := anl.2, openCalls := sd.1
        sendCalls := sd.2.length, sendTexts := sd.2
        deliveryPayload := some anl.1, authFailed := false }

/-! ## Auxiliary definitions used by the statements -/

/-- Whether a string contains a blank line (`"\n\n"` as a substring). -/
def hasNN : PyStr → Bool
  | [] => false
  | [_] => false
  | c₁ :: c₂ :: rest => (c₁ = '\n' && c₂ = '\n') || hasNN (c₂ :: rest)

/-- Joining with `"\n\n"` (the inverse direction of `splitBlank`). -/
def joinNN : List PyStr → PyStr
  | [] => []
  | [s] => s
  | s :: r :: rest => s ++ '\n' :: '\n' :: joinNN (r :: rest)

/-- A chunk's content with a blank line after each section, as
accumulated in `current_message` by the packing loop. -/
def bundle (g : List PyStr) : PyStr := (g.map (fun s => s ++ blankSep)).flatten

/-- The message list produced from a packing-loop state: the flushed
buffers plus the final `current_message.strip()` when non-empty. -/
def flushBuffers (p : List PyStr × PyStr) : List PyStr :=
  p.1 ++ (if pyStrip p.2 ≠ [] then [pyStrip p.2] else [])

/-- Recovery of one chunk's sections: split the chunk body on blank
lines (an empty body holds no section). -/
def recoverChunk (c : PyStr) : List PyStr :=
  if c = [] then [] else splitBlank c

/-- Recovery of the report's sections from the splitter's output: drop
the injected header from chunk 0 (the continuation markers of the send
loop are injected after `splitMessages`, so the buffers carry none), then
split every chunk body on blank lines and concatenate. -/
def recoverSections (header : PyStr) (msgs : List PyStr) : List PyStr :=
  match msgs with
  | [] => []
  | m :: rest =>
    recoverChunk (m.drop header.length) ++ (rest.map recoverChunk).flatten

/-- A concrete environment whose identity endpoint fails. -/
def env0 : Env :=
  { authResult := none, oldest := 0, searchResult := .ok []
    llm := fun _ => .error "err", timestamp := ts0
    openResult := .ok "D", sendOk := fun _ => true }

/-- A concrete platform record inside the window. -/
def rec1 : MatchRecord :=
  { text := "hi", username := some "alice", channel_name := some "general"
    ts := 5, permalink := some "p" }

/-- A concrete environment whose language-model endpoint always fails. -/
def env1 : Env :=
  { authResult := some "U1", oldest := 0, searchResult := .ok [rec1]
    llm := fun _ => .error "boom", timestamp := ts0
    openResult := .ok "D", sendOk := fun _ => true }

/-- A single-section report of exactly `max_length` characters. -/
def repA : PyStr := List.replicate 3900 'a'

/-- Two large sections: `'x' * 2000`, blank line, `'y' * 2000`. -/
def xs2000 : PyStr := List.replicate 2000 'x'

def ys2000 : PyStr := List.replicate 2000 'y'

def repW : PyStr := xs2000 ++ blankSep ++ ys2000

/-- A 3900-character section followed by a section with a leading
space: `'x' * 3900`, blank line, `" b"`. -/
def xs3900 : PyStr := List.replicate 3900 'x'

def repS : PyStr := xs3900 ++ blankSep ++ [' ', 'b']

/-- `'x' * 4000`, an empty section, then `' ' * 4000` (whitespace only). -/
def xs4000 : PyStr := List.replicate 4000 'x'

def sp4000 : PyStr := List.replicate 4000 ' '

def repE : PyStr := xs4000 ++ blankSep ++ blankSep ++ sp4000

/-! ## Basic lemmas about the string model -/

theorem dropWhile_head_false {p : Char → Bool} {l : List Char} {c : Char} {t : List Char}
    (h : l.dropWhile p = c :: t) : p c = false := by
  have := List.head?_dropWhile_not p l
  rw [h] at this
  exact this

theorem dropWhile_idem {p : Char → Bool} (l : List Char) :
    (l.dropWhile p).dropWhile p = l.dropWhile p := by
  cases h : l.dropWhile p with
  | nil => simp
  | cons c t =>
    have hc := dropWhile_head_false h
    simp [List.dropWhile_cons, hc]

theorem lstrip_length_le (s : PyStr) : (lstrip s).length ≤ s.length :=
  (List.dropWhile_suffix isPySpace).length_le

theorem rstrip_length_le (s : PyStr) : (rstrip s).length ≤ s.length := by
  have h := (List.dropWhile_suffix (l := s.reverse) isPySpace).length_le
  simpa [rstrip] using h

theorem pyStrip_length_le (s : PyStr) : (pyStrip s).length ≤ s.length :=
  le_trans (rstrip_length_le _) (lstrip_length_le _)

theorem lstrip_cons_of_neg {c : Char} (h : isPySpace c = false) (l : PyStr) :
    lstrip (c :: l) = c :: l := by
  simp [lstrip, List.dropWhile_cons, h]

theorem lstrip_cons_of_pos {c : Char} (h : isPySpace c = true) (l : PyStr) :
    lstrip (c :: l) = lstrip l := by
  simp [lstrip, List.dropWhile_cons, h]

theorem lstrip_eq_nil_iff {s : PyStr} : lstrip s = [] ↔ ∀ c ∈ s, isPySpace c = true := by
  simp [lstrip, List.dropWhile_eq_nil_iff]

theorem rstrip_eq_nil_iff {s : PyStr} : rstrip s = [] ↔ ∀ c ∈ s, isPySpace c = true := by
  constructor
  · intro h c hc
    have : s.reverse.dropWhile isPySpace = [] := by
      have := congrArg List.reverse h
      simpa [rstrip] using this
    exact (List.dropWhile_eq_nil_iff.mp this) c (by simpa using hc)
  · intro h
    have : s.reverse.dropWhile isPySpace = [] :=
      List.dropWhile_eq_nil_iff.mpr (fun c hc => h c (by simpa using hc))
    simp [rstrip, this]

theorem exists_rstrip_ext (s : PyStr) : ∃ u, rstrip s ++ u = s := by
  obtain ⟨u', hu⟩ := List.dropWhile_suffix (l := s.reverse) isPySpace
  refine ⟨u'.reverse, ?_⟩
  have := congrArg List.reverse hu
  simpa [rstrip] using this

theorem rstrip_idem (s : PyStr) : rstrip (rstrip s) = rstrip s := by
  simp [rstrip, dropWhile_idem]

theorem rstrip_append_of_ne {b : PyStr} (a : PyStr) (h : rstrip b ≠ []) :
    rstrip (a ++ b) = a ++ rstrip b := by
  have hb : b.reverse.dropWhile isPySpace ≠ [] := by
    intro hnil
    exact h (by simp [rstrip, hnil])
  simp only [rstrip, List.reverse_append, List.dropWhile_append,
    List.isEmpty_iff]
  rw [if_neg hb]
  simp

theorem rstrip_append_nn (l : PyStr) : rstrip (l ++ blankSep) = rstrip l := by
  simp [rstrip, blankSep, List.dropWhile_cons, isPySpace]

theorem rstrip_append_last {c : Char} (h : isPySpace c = false) (l : PyStr) :
    rstrip (l ++ [c]) = l ++ [c] := by
  rw [rstrip_append_of_ne l (by simp [rstrip, List.dropWhile_cons, h])]
  simp [rstrip, List.dropWhile_cons, h]

theorem pyStrip_nil : pyStrip [] = [] := rfl

theorem pyStrip_append_nn (s : PyStr) : pyStrip (s ++ blankSep) = pyStrip s := by
  unfold pyStrip
  rcases h : lstrip s with _ | ⟨c, t⟩
  · have hall : ∀ c ∈ s, isPySpace c = true := lstrip_eq_nil_iff.mp h
    have h2 : lstrip (s ++ blankSep) = [] := by
      apply lstrip_eq_nil_iff.mpr
      intro c hc
      rcases List.mem_append.mp hc with hc | hc
      · exact hall c hc
      · have hc' : c = '\n' := by simpa [blankSep] using hc
        subst hc'
        decide
    rw [h2]
  · have h2 : lstrip (s ++ blankSep) = lstrip s ++ blankSep := by
      simp only [lstrip, List.dropWhile_append, List.isEmpty_iff]
      rw [if_neg (by rw [← lstrip, h]; simp)]
    rw [h2, h, ← h, rstrip_append_nn]

theorem pyStrip_length_le_self_of_append_nn (s : PyStr) :
    (pyStrip (s ++ blankSep)).length ≤ s.length := by
  rw [pyStrip_append_nn]
  exact pyStrip_length_le s

/-! ## Lemmas about `splitBlank` -/

theorem splitBlank_ne_nil (l : PyStr) : splitBlank l ≠ [] := by
  match l with
  | [] => simp [splitBlank]
  | [c] => simp [splitBlank]
  | c₁ :: c₂ :: rest =>
    rw [splitBlank]
    by_cases h : c₁ = '\n' ∧ c₂ = '\n'
    · simp [h]
    · rw [if_neg h]
      rcases hsb : splitBlank (c₂ :: rest) with _ | ⟨s, ss⟩ <;> simp

theorem splitBlank_cons_cons (c₁ c₂ : Char) (rest : PyStr) :
    splitBlank (c₁ :: c₂ :: rest) =
      if c₁ = '\n' ∧ c₂ = '\n' then [] :: splitBlank rest
      else
        match splitBlank (c₂ :: rest) with
        | [] => [[c₁]]
        | s :: ss => (c₁ :: s) :: ss := rfl

theorem splitBlank_no_nn : ∀ (l : PyStr), hasNN l = false → splitBlank l = [l]
  | [], _ => rfl
  | [c], _ => rfl
  | c₁ :: c₂ :: rest, h => by
    rw [hasNN] at h
    have hne : ¬(c₁ = '\n' ∧ c₂ = '\n') := by
      intro hc
      simp [hc.1, hc.2] at h
    have hrest : hasNN (c₂ :: rest) = false := by
      rcases Bool.or_eq_false_iff.mp h with ⟨_, h2⟩
      exact h2
    rw [splitBlank_cons_cons, if_neg hne, splitBlank_no_nn (c₂ :: rest) hrest]

theorem hasNN_of_no_nl : ∀ (l : PyStr), (∀ c ∈ l, c ≠ '\n') → hasNN l = false
  | [], _ => rfl
  | [_], _ => rfl
  | c₁ :: c₂ :: rest, h => by
    rw [hasNN]
    have h1 : c₁ ≠ '\n' := h c₁ (by simp)
    have hrest : hasNN (c₂ :: rest) = false :=
      hasNN_of_no_nl (c₂ :: rest) (fun c hc => h c (List.mem_cons_of_mem _ hc))
    simp [h1, hrest]

theorem splitBlank_no_nl (l : PyStr) (h : ∀ c ∈ l, c ≠ '\n') : splitBlank l = [l] :=
  splitBlank_no_nn l (hasNN_of_no_nl l h)

theorem splitBlank_append :
    ∀ (a : PyStr), hasNN a = false → a.getLast? ≠ some '\n' →
      ∀ (l : PyStr), splitBlank (a ++ '\n' :: '\n' :: l) = a :: splitBlank l
  | [], _, _, l => by simp [splitBlank_cons_cons]
  | [c], _, hLast, l => by
    have hc : c ≠ '\n' := by simpa using hLast
    rw [List.cons_append, List.nil_append, splitBlank_cons_cons,
      if_neg (by intro hx; exact hc hx.1)]
    have : splitBlank ('\n' :: '\n' :: l) = [] :: splitBlank l := by
      simp [splitBlank_cons_cons]
    simp [this]
  | c₁ :: c₂ :: a', hNN, hLast, l => by
    rw [hasNN] at hNN
    rcases Bool.or_eq_false_iff.mp hNN with ⟨hpair, hrest⟩
    have hne : ¬(c₁ = '\n' ∧ c₂ = '\n') := by
      intro hc
      simp [hc.1, hc.2] at hpair
    have hLast' : (c₂ :: a').getLast? ≠ some '\n' := by
      simpa [List.getLast?_cons_cons] using hLast
    have ih := splitBlank_append (c₂ :: a') hrest hLast' l
    rw [List.cons_append, List.cons_append, splitBlank_cons_cons]
    rw [if_neg hne]
    rw [List.cons_append] at ih
    rw [ih]

theorem joinNN_splitBlank : ∀ (l : PyStr), joinNN (splitBlank l) = l
  | [] => rfl
  | [c] => rfl
  | c₁ :: c₂ :: rest => by
    rw [splitBlank_cons_cons]
    by_cases h : c₁ = '\n' ∧ c₂ = '\n'
    · rw [if_pos h]
      have ih := joinNN_splitBlank rest
      rcases hsb : splitBlank rest with _ | ⟨s, ss⟩
      · exact absurd hsb (splitBlank_ne_nil rest)
      · rw [hsb] at ih
        rw [joinNN, ih, h.1, h.2]
        simp
    · rw [if_neg h]
      have ih := joinNN_splitBlank (c₂ :: rest)
      rcases hsb : splitBlank (c₂ :: rest) with _ | ⟨s, ss⟩
      · exact absurd hsb (splitBlank_ne_nil _)
      · rw [hsb] at ih
        rcases ss with _ | ⟨s', ss'⟩
        · rw [joinNN] at ih
          rw [joinNN, ih]
        · rw [joinNN] at ih
          rw [joinNN, List.cons_append, ih]

/-! ## Lemmas about the packing loop -/

theorem packLoop_nil (current : PyStr) (acc : List PyStr) :
    packLoop [] current acc = (acc, current) := rfl

theorem packLoop_fit {current s : PyStr} (rest : List PyStr) (acc : List PyStr)
    (h : current.length + s.length + 2 ≤ max_length) :
    packLoop (s :: rest) current acc = packLoop rest (current ++ s ++ blankSep) acc := by
  rw [packLoop, if_pos h]

theorem packLoop_nofit {current s : PyStr} (rest : List PyStr) (acc : List PyStr)
    (h : ¬ current.length + s.length + 2 ≤ max_length) :
    packLoop (s :: rest) current acc
      = packLoop rest (s ++ blankSep) (acc ++ [pyStrip current]) := by
  rw [packLoop, if_neg h]

theorem packLoop_acc : ∀ (secs : List PyStr) (current : PyStr) (acc : List PyStr),
    packLoop secs current acc
      = (acc ++ (packLoop secs current []).1, (packLoop secs current []).2)
  | [], current, acc => by simp [packLoop_nil]
  | s :: rest, current, acc => by
    by_cases h : current.length + s.length + 2 ≤ max_length
    · rw [packLoop_fit rest acc h, packLoop_fit rest [] h,
        packLoop_acc rest (current ++ s ++ blankSep) acc]
    · rw [packLoop_nofit rest acc h, packLoop_nofit rest [] h,
        packLoop_acc rest (s ++ blankSep) (acc ++ [pyStrip current]),
        packLoop_acc rest (s ++ blankSep) ([] ++ [pyStrip current])]
      simp

theorem splitMessages_short {report : PyStr} (header : PyStr)
    (h : report.length ≤ max_length) :
    splitMessages header report = [header ++ report] := by
  rw [splitMessages, if_pos h]

theorem sentMessages_short {report : PyStr} (header : PyStr)
    (h : report.length ≤ max_length) :
    sentMessages header report = [header ++ report] := by
  rw [sentMessages, splitMessages_short header h]
  rfl

/-! ## Claims C2, C9 (single-message branch) -/

/-- C2: if `len(header + report) ≤ max_length` (3900), the delivery
splitter emits exactly one message whose text is `header + report`, with
no continuation marker. -/
theorem C2_single_message (header report : PyStr)
    (h : (header ++ report).length ≤ max_length) :
    sentMessages header report = [header ++ report] := by
  apply sentMessages_short
  rw [List.length_append] at h
  omega

theorem C2_witness :
    (hdr0 ++ "ok".toList).length ≤ max_length ∧
    sentMessages hdr0 "ok".toList = [hdr0 ++ "ok".toList] :=
  ⟨by decide, C2_single_message hdr0 "ok".toList (by decide)⟩

/-- C9: a report that itself fits within `max_length` always yields
exactly one chunk, equal to `header + report`; re-splitting an undersized
report never introduces additional chunks. -/
theorem C9_undersized_one_chunk (header report : PyStr)
    (h : report.length ≤ max_length) :
    sentMessages header report = [header ++ report] :=
  sentMessages_short header h

theorem C9_witness :
    ("done".toList : PyStr).length ≤ max_length ∧
    sentMessages hdr0 "done".toList = [hdr0 ++ "done".toList] :=
  ⟨by decide, C9_undersized_one_chunk hdr0 "done".toList (by decide)⟩

/-! ## Claim C4 (mention collector) -/

theorem collect_foldl_spec (oldest : ℚ) :
    ∀ (ms : List MatchRecord) (acc : List Mention),
      ms.foldl (fun acc m => if oldest ≤ m.ts then acc ++ [extractMention m] else acc) acc
        = acc ++ (ms.filter (fun m => decide (oldest ≤ m.ts))).map extractMention
  | [], acc => by simp
  | m :: rest, acc => by
    by_cases h : oldest ≤ m.ts
    · rw [List.foldl_cons, if_pos h, collect_foldl_spec oldest rest (acc ++ [extractMention m])]
      simp [List.filter_cons, h]
    · rw [List.foldl_cons, if_neg h, collect_foldl_spec oldest rest acc]
      simp [List.filter_cons, h]

/-- C4: the mention collector returns exactly the platform records whose
timestamp is at least `oldest`, in their original relative order, each
mapped through `extractMention` (which only fills in the documented
defaults for missing author, channel and permalink); records below the
bound are excluded, so every output satisfies the window predicate. -/
theorem C4_collector_filter (oldest : ℚ) (ms : List MatchRecord) :
    get_mentions_last_24h oldest ms
      = (ms.filter (fun m => decide (oldest ≤ m.ts))).map extractMention ∧
    ∀ x ∈ get_mentions_last_24h oldest ms, oldest ≤ x.timestamp := by
  have heq : get_mentions_last_24h oldest ms
      = (ms.filter (fun m => decide (oldest ≤ m.ts))).map extractMention := by
    rw [get_mentions_last_24h, collect_foldl_spec oldest ms []]
    simp
  refine ⟨heq, ?_⟩
  intro x hx
  rw [heq] at hx
  obtain ⟨m, hm, hxm⟩ := List.mem_map.mp hx
  have := List.of_mem_filter hm
  rw [← hxm]
  simpa [extractMention] using of_decide_eq_true this

/-! ## Claim C5 (empty mention list) -/

/-- C5: on an empty mention sequence the formatter returns the fixed
"no mentions" literal and issues zero language-model calls. -/
theorem C5_empty_mentions (llm : String → Except String String) :
    analyze_with_claude llm [] = (no_mentions_msg, 0) := rfl

/-! ## Claim C7 (abort on identity failure) -/

/-- C7: when the identity endpoint fails, the pipeline performs zero
search calls, zero language-model calls, zero channel-open calls and zero
sends, and reports the failure. -/
theorem C7_auth_abort (env : Env) (h : env.authResult = none) :
    mainRun env
      = { searchCalls := 0, llmCalls := 0, openCalls := 0, sendCalls := 0
          sendTexts := [], deliveryPayload := none, authFailed := true } := by
  rw [mainRun, get_my_user_id, h]

theorem C7_witness :
    env0.authResult = none ∧
    mainRun env0
      = { searchCalls := 0, llmCalls := 0, openCalls := 0, sendCalls := 0
          sendTexts := [], deliveryPayload := none, authFailed := true } :=
  ⟨rfl, C7_auth_abort env0 rfl⟩

/-! ## Claim C6 (language-model failure degrades, delivery proceeds) -/

/-- C6: for a non-empty mention sequence, when the language-model call
fails the formatter returns the fixed "analysis failed" literal (after one
call), and the pipeline still reaches the delivery step with that literal
as payload instead of aborting. -/
theorem C6_llm_failure (env : Env) (uid e : String)
    (hauth : env.authResult = some uid) (huid : uid ≠ "")
    (hfail : env.llm (buildPrompt (collectMentions env).1) = .error e)
    (hne : (collectMentions env).1 ≠ []) :
    analyze_with_claude env.llm (collectMentions env).1 = (analysis_error_msg, 1) ∧
    (mainRun env).deliveryPayload = some analysis_error_msg ∧
    (mainRun env).authFailed = false := by
  have hana : analyze_with_claude env.llm (collectMentions env).1
      = (analysis_error_msg, 1) := by
    rw [analyze_with_claude, if_neg (by simpa [List.isEmpty_iff] using hne), hfail]
  refine ⟨hana, ?_, ?_⟩ <;>
  · rw [mainRun, get_my_user_id, hauth]
    simp only [if_neg huid, hana]

theorem C6_witness :
    env1.authResult = some "U1" ∧ ("U1" : String) ≠ "" ∧
    env1.llm (buildPrompt (collectMentions env1).1) = .error "boom" ∧
    (collectMentions env1).1 ≠ [] ∧
    (analyze_with_claude env1.llm (collectMentions env1).1 = (analysis_error_msg, 1) ∧
     (mainRun env1).deliveryPayload = some analysis_error_msg ∧
     (mainRun env1).authFailed = false) := by
  have hne : (collectMentions env1).1 ≠ [] := by decide
  exact ⟨rfl, by decide, rfl, hne,
    C6_llm_failure env1 "U1" "boom" rfl (by decide) rfl hne⟩

/-! ## Claim C1 (message size bound) -/

theorem addMarkers_mem (total : Nat) :
    ∀ (k : Nat) (l : List PyStr) (m : PyStr), m ∈ addMarkers total k l →
      ∃ b ∈ l, m = b ∨ ∃ i, m = contMarker i total ++ b
  | _, [], m, h => absurd h (by rw [addMarkers]; simp)
  | k, x :: rest, m, h => by
    rw [addMarkers] at h
    rcases List.mem_cons.mp h with h | h
    · refine ⟨x, by simp, ?_⟩
      by_cases hk : 0 < k
      · exact Or.inr ⟨k, by rw [h, if_pos hk]⟩
      · exact Or.inl (by rw [h, if_neg hk])
    · obtain ⟨b, hb, hmb⟩ := addMarkers_mem total (k + 1) rest m h
      exact ⟨b, List.mem_cons_of_mem _ hb, hmb⟩

/-- The size invariant maintained by the packing loop: every flushed
buffer fits in `max_length` unless it is the strip of a single section
that itself fits nowhere. -/
theorem packLoop_bound (S : List PyStr) :
    ∀ (secs : List PyStr) (current : PyStr) (acc : List PyStr),
      (∀ s ∈ secs, s ∈ S) →
      (∀ m ∈ acc, m.length ≤ max_length ∨
        ∃ s ∈ S, max_length < s.length ∧ m.length ≤ s.length) →
      ((pyStrip current).length ≤ max_length ∨
        ∃ s ∈ S, max_length < s.length ∧ (pyStrip current).length ≤ s.length) →
      (∀ m ∈ (packLoop secs current acc).1,
        m.length ≤ max_length ∨
          ∃ s ∈ S, max_length < s.length ∧ m.length ≤ s.length) ∧
      ((pyStrip (packLoop secs current acc).2).length ≤ max_length ∨
        ∃ s ∈ S, max_length < s.length ∧
          (pyStrip (packLoop secs current acc).2).length ≤ s.length)
  | [], current, acc, _, hacc, hcur => by
    rw [packLoop_nil]
    exact ⟨hacc, hcur⟩
  | s :: rest, current, acc, hsecs, hacc, hcur => by
    by_cases h : current.length + s.length + 2 ≤ max_length
    · rw [packLoop_fit rest acc h]
      apply packLoop_bound S rest (current ++ s ++ blankSep) acc
        (fun x hx => hsecs x (List.mem_cons_of_mem _ hx)) hacc
      left
      calc (pyStrip (current ++ s ++ blankSep)).length
          ≤ (current ++ s ++ blankSep).length := pyStrip_length_le _
        _ ≤ max_length := by
            simp only [List.length_append, blankSep, List.length_cons, List.length_nil]
            omega
    · rw [packLoop_nofit rest acc h]
      apply packLoop_bound S rest (s ++ blankSep) (acc ++ [pyStrip current])
        (fun x hx => hsecs x (List.mem_cons_of_mem _ hx))
      · intro m hm
        rcases List.mem_append.mp hm with hm | hm
        · exact hacc m hm
        · have hms : m = pyStrip current := by simpa using hm
          rw [hms]
          exact hcur
      · rw [pyStrip_append_nn]
        have hle : (pyStrip s).length ≤ s.length := pyStrip_length_le s
        by_cases hs : s.length ≤ max_length
        · exact Or.inl (le_trans hle hs)
        · exact Or.inr ⟨s, hsecs s (by simp), by omega, hle⟩

/-- Every buffer assembled by `splitMessages` is bounded by
`max_length + header.length`, except the strip of a single section that
alone exceeds `max_length`. -/
theorem splitMessages_bound (header report : PyStr) (hh : header.length ≤ max_length) :
    ∀ b ∈ splitMessages header report,
      b.length ≤ max_length + header.length ∨
        ∃ s ∈ splitBlank report, max_length < s.length ∧ b.length ≤ s.length := by
  intro b hb
  rw [splitMessages] at hb
  by_cases h : report.length ≤ max_length
  · rw [if_pos h] at hb
    have hbe : b = header ++ report := by simpa using hb
    left
    rw [hbe]
    simp only [List.length_append]
    omega
  · rw [if_neg h] at hb
    have hbound := packLoop_bound (splitBlank report) (splitBlank report) header []
      (fun s hs => hs) (by simp)
      (Or.inl (le_trans (pyStrip_length_le header) hh))
    have hconv : ∀ m : PyStr, (m.length ≤ max_length ∨
        ∃ s ∈ splitBlank report, max_length < s.length ∧ m.length ≤ s.length) →
        (m.length ≤ max_length + header.length ∨
          ∃ s ∈ splitBlank report, max_length < s.length ∧ m.length ≤ s.length) := by
      intro m hm
      rcases hm with hm | hm
      · exact Or.inl (by omega)
      · exact Or.inr hm
    by_cases hp : pyStrip (packLoop (splitBlank report) header []).2 ≠ []
    · rw [if_pos hp] at hb
      rcases List.mem_append.mp hb with hb | hb
      · exact hconv b (hbound.1 b hb)
      · have hbe : b = pyStrip (packLoop (splitBlank report) header []).2 := by
          simpa using hb
        rw [hbe]
        exact hconv _ hbound.2
    · rw [if_neg hp] at hb
      exact hconv b (hbound.1 b hb)

theorem repA_no_nl : ∀ c ∈ repA, c ≠ '\n' := by
  intro c hc
  rw [List.eq_of_mem_replicate hc]
  decide

theorem hdr0_length : hdr0.length = 32 := by decide

/-- C1 fails on the code: a single-section report of exactly
`max_length` characters (so no section exceeds `max_length`, and the
documented exception does not apply) is emitted as one message of
`max_length + 32` characters, because the header is prepended after the
size test `len(organized_tasks) <= max_length`. -/
theorem C1_counterexample :
    (∃ m ∈ sentMessages hdr0 repA, max_length < m.length) ∧
    ∀ s ∈ splitBlank repA, s.length ≤ max_length := by
  have hlen : repA.length = 3900 := by
    unfold repA
    exact List.length_replicate 3900 'a'
  constructor
  · refine ⟨hdr0 ++ repA, ?_, ?_⟩
    · rw [sentMessages_short hdr0 (by rw [hlen]; decide)]
      simp
    · have : (hdr0 ++ repA).length = 3932 := by
        simp only [List.length_append, hdr0_length, hlen]
      rw [this]
      decide
  · intro s hs
    rw [splitBlank_no_nl repA repA_no_nl] at hs
    have hse : s = repA := by simpa using hs
    rw [hse, hlen]
    decide

/-- C1 amended: every emitted message is one splitter buffer, optionally
preceded by an injected continuation marker; each buffer's length is at
most `max_length + header.length` (the `max_length` excess arising only
from the header injected in the single-message case), except a buffer
that is the strip of a single section longer than `max_length`. -/
theorem C1_amended (header report : PyStr) (hh : header.length ≤ max_length) :
    ∀ m ∈ sentMessages header report,
      ∃ b ∈ splitMessages header report,
        (m = b ∨ ∃ i, m = contMarker i (splitMessages header report).length ++ b) ∧
        (b.length ≤ max_length + header.length ∨
          ∃ s ∈ splitBlank report, max_length < s.length ∧ b.length ≤ s.length) := by
  intro m hm
  rw [sentMessages] at hm
  obtain ⟨b, hb, hmb⟩ := addMarkers_mem (splitMessages header report).length 0
    (splitMessages header report) m hm
  exact ⟨b, hb, hmb, splitMessages_bound header report hh b hb⟩

theorem C1_amended_witness :
    hdr0.length ≤ max_length ∧
    (∃ b ∈ splitMessages hdr0 "hi".toList,
      ((hdr0 ++ "hi".toList : PyStr) = b ∨
        ∃ i, (hdr0 ++ "hi".toList : PyStr)
          = contMarker i (splitMessages hdr0 "hi".toList).length ++ b) ∧
      (b.length ≤ max_length + hdr0.length ∨
        ∃ s ∈ splitBlank "hi".toList, max_length < s.length ∧ b.length ≤ s.length)) := by
  have hh : hdr0.length ≤ max_length := by rw [hdr0_length]; decide
  refine ⟨hh, C1_amended hdr0 "hi".toList hh (hdr0 ++ "hi".toList) ?_⟩
  rw [sentMessages_short hdr0 (by decide)]
  simp

/-! ## Claim C8 (continuation labeling) -/

theorem addMarkers_length (total : Nat) :
    ∀ (k : Nat) (l : List PyStr), (addMarkers total k l).length = l.length
  | _, [] => rfl
  | k, x :: rest => by
    rw [addMarkers]
    simp [addMarkers_length total (k + 1) rest]

theorem addMarkers_get? (total : Nat) :
    ∀ (l : List PyStr) (k i : Nat),
      (addMarkers total k l).get? i
        = (l.get? i).map (fun m => if 0 < k + i then contMarker (k + i) total ++ m else m)
  | [], k, i => by
    rw [addMarkers]
    simp
  | x :: rest, k, 0 => by
    rw [addMarkers]
    simp
  | x :: rest, k, i + 1 => by
    rw [addMarkers]
    simp only [List.get?_cons_succ]
    rw [addMarkers_get? total rest (k + 1) i]
    have he : k + 1 + i = k + (i + 1) := by omega
    rw [he]

theorem rstrip_cons_ne_nil {c : Char} (h : isPySpace c = false) (l : PyStr) :
    rstrip (c :: l) ≠ [] := by
  intro hnil
  have := rstrip_eq_nil_iff.mp hnil c (by simp)
  rw [h] at this
  exact Bool.false_ne_true this

theorem pyStrip_cons_head {c : Char} (l : PyStr) (h : isPySpace c = false) :
    ∃ t, pyStrip (c :: l) = c :: t := by
  rw [pyStrip, lstrip_cons_of_neg h]
  obtain ⟨u, hu⟩ := exists_rstrip_ext (c :: l)
  rcases he : rstrip (c :: l) with _ | ⟨d, t⟩
  · exact absurd he (rstrip_cons_ne_nil h l)
  · rw [he] at hu
    have hd : d = c := by
      have := congrArg List.head? hu
      simpa using this
    exact ⟨t, by rw [hd]⟩

theorem headerPre_cons : headerPre = '📋' :: " タスク整理レポート (".toList := by decide

theorem makeHeader_cons (ts : PyStr) :
    makeHeader ts = '📋' :: (" タスク整理レポート (".toList ++ ts ++ ")".toList ++ blankSep) := by
  rw [makeHeader, headerPre_cons]
  simp

theorem contMarker_cons (i total : Nat) :
    ∃ t, contMarker i total = '（' :: t := by
  rw [contMarker]
  have h : ("（続き ".toList : PyStr) = '（' :: "続き ".toList := by decide
  rw [h]
  exact ⟨_, rfl⟩

theorem packLoop_first : ∀ (secs : List PyStr) (current : PyStr),
    (∃ X, ((packLoop secs current []).1).head? = some (pyStrip (current ++ X))) ∨
    ((packLoop secs current []).1 = [] ∧ ∃ X, (packLoop secs current []).2 = current ++ X)
  | [], current => by
    rw [packLoop_nil]
    exact Or.inr ⟨rfl, [], by simp⟩
  | s :: rest, current => by
    by_cases h : current.length + s.length + 2 ≤ max_length
    · rw [packLoop_fit rest [] h]
      rcases packLoop_first rest (current ++ s ++ blankSep) with ⟨X, hX⟩ | ⟨h1, X, hX⟩
      · left
        refine ⟨s ++ blankSep ++ X, ?_⟩
        rw [hX]
        simp [List.append_assoc]
      · right
        refine ⟨h1, s ++ blankSep ++ X, ?_⟩
        rw [hX]
        simp [List.append_assoc]
    · rw [packLoop_nofit rest [] h]
      left
      rw [packLoop_acc rest (s ++ blankSep) ([] ++ [pyStrip current])]
      refine ⟨[], ?_⟩
      simp

/-- In the multi-chunk branch the first chunk is always the strip of the
header followed by some packed content. -/
theorem splitMessages_head (header report : PyStr)
    (h : ¬ report.length ≤ max_length)
    (h2 : 1 < (splitMessages header report).length) :
    ∃ X, (splitMessages header report).head? = some (pyStrip (header ++ X)) := by
  rw [splitMessages, if_neg h] at h2 ⊢
  rcases packLoop_first (splitBlank report) header with ⟨X, hX⟩ | ⟨h1, X, hX⟩
  · refine ⟨X, ?_⟩
    rcases hl : (packLoop (splitBlank report) header []).1 with _ | ⟨m, t⟩
    · rw [hl] at hX
      simp at hX
    · rw [hl] at hX
      by_cases hp : pyStrip (packLoop (splitBlank report) header []).2 ≠ []
      · rw [if_pos hp]
        simpa [hl] using hX
      · rw [if_neg hp]
        simpa [hl] using hX
  · exfalso
    rw [h1] at h2
    by_cases hp : pyStrip (packLoop (splitBlank report) header []).2 ≠ []
    · rw [if_pos hp] at h2
      simp at h2
    · rw [if_neg hp] at h2
      simp at h2

/-- C8: in an `N`-chunk delivery with `N > 1`, each chunk at 0-indexed
position `i ≥ 1` is sent as the continuation marker "（続き i+1/N）"
followed by the buffer, while chunk 0 never begins with a continuation
marker (it starts with the header's clipboard glyph). -/
theorem C8_continuation_markers (ts report : PyStr)
    (h : 1 < (splitMessages (makeHeader ts) report).length) :
    (sentMessages (makeHeader ts) report).length
        = (splitMessages (makeHeader ts) report).length ∧
    (∀ i m, 0 < i → (splitMessages (makeHeader ts) report).get? i = some m →
      (sentMessages (makeHeader ts) report).get? i
        = some (contMarker i (splitMessages (makeHeader ts) report).length ++ m)) ∧
    (∀ m0, (sentMessages (makeHeader ts) report).get? 0 = some m0 →
      ∀ j M t, m0 ≠ contMarker j M ++ t) := by
  refine ⟨by rw [sentMessages]; exact addMarkers_length _ 0 _, ?_, ?_⟩
  · intro i m hi hm
    rw [sentMessages, addMarkers_get? _ _ 0 i, hm]
    simp [hi]
  · intro m0 hm0 j M t
    have hrep : ¬ report.length ≤ max_length := by
      intro hle
      rw [splitMessages_short _ hle] at h
      simp at h
    obtain ⟨X, hX⟩ := splitMessages_head (makeHeader ts) report hrep h
    have hg : (splitMessages (makeHeader ts) report).get? 0
        = (splitMessages (makeHeader ts) report).head? := by
      cases splitMessages (makeHeader ts) report <;> rfl
    rw [sentMessages, addMarkers_get? _ _ 0 0, hg, hX] at hm0
    simp at hm0
    subst hm0
    have hx2 : makeHeader ts ++ X
        = '📋' :: (" タスク整理レポート (".toList ++ ts ++ ")".toList ++ blankSep ++ X) := by
      rw [makeHeader_cons]
      simp
    obtain ⟨t2, ht2⟩ := pyStrip_cons_head
      (" タスク整理レポート (".toList ++ ts ++ ")".toList ++ blankSep ++ X)
      (show isPySpace '📋' = false by decide)
    rw [hx2, ht2]
    obtain ⟨cm, hcm⟩ := contMarker_cons j M
    rw [hcm]
    intro heq
    have h5 := congrArg List.head? heq
    simp at h5

theorem replicate_cons_form (n : Nat) (a : Char) (hn : 0 < n) :
    List.replicate n a = a :: List.replicate (n - 1) a := by
  obtain ⟨m, rfl⟩ : ∃ m, n = m + 1 := ⟨n - 1, by omega⟩
  rw [List.replicate_succ]
  simp

theorem replicate_concat_form (n : Nat) (a : Char) (hn : 0 < n) :
    List.replicate n a = List.replicate (n - 1) a ++ [a] := by
  obtain ⟨m, rfl⟩ : ∃ m, n = m + 1 := ⟨n - 1, by omega⟩
  rw [List.replicate_succ']
  simp

theorem replicate_no_nl (n : Nat) (a : Char) (ha : a ≠ '\n') :
    ∀ c ∈ List.replicate n a, c ≠ '\n' := by
  intro c hc
  rw [List.eq_of_mem_replicate hc]
  exact ha

theorem xs2000_cons : xs2000 = 'x' :: List.replicate 1999 'x' := by
  rw [xs2000, show (2000 : Nat) = 1999 + 1 from rfl, List.replicate_succ]

theorem xs2000_concat : xs2000 = List.replicate 1999 'x' ++ ['x'] := by
  rw [xs2000, show (2000 : Nat) = 1999 + 1 from rfl, List.replicate_succ']

theorem ys2000_cons : ys2000 = 'y' :: List.replicate 1999 'y' := by
  rw [ys2000, show (2000 : Nat) = 1999 + 1 from rfl, List.replicate_succ]

theorem ys2000_concat : ys2000 = List.replicate 1999 'y' ++ ['y'] := by
  rw [ys2000, show (2000 : Nat) = 1999 + 1 from rfl, List.replicate_succ']

theorem pyStrip_of_edges {x : PyStr} (c d : Char) (l l' : PyStr)
    (hx1 : x = c :: l) (hx2 : x = l' ++ [d])
    (hc : isPySpace c = false) (hd : isPySpace d = false) :
    pyStrip x = x := by
  rw [pyStrip, hx1, lstrip_cons_of_neg hc, ← hx1, hx2, rstrip_append_last hd]

theorem pyStrip_wrap {a : PyStr} (c d : Char) (l l' : PyStr)
    (h1 : a = c :: l) (h2 : a = l' ++ [d])
    (hc : isPySpace c = false) (hd : isPySpace d = false) :
    pyStrip (a ++ blankSep) = a := by
  rw [pyStrip_append_nn, pyStrip_of_edges c d l l' h1 h2 hc hd]

theorem xs2000_length : xs2000.length = 2000 := by
  rw [xs2000]
  exact List.length_replicate _ _

theorem ys2000_length : ys2000.length = 2000 := by
  rw [ys2000]
  exact List.length_replicate _ _

theorem makeHeader_ts0_length : (makeHeader ts0).length = 32 := hdr0_length

theorem splitBlank_repW : splitBlank repW = [xs2000, ys2000] := by
  have hshape : repW = xs2000 ++ '\n' :: '\n' :: ys2000 := by
    rw [repW, blankSep, List.append_assoc]
    rfl
  rw [hshape,
    splitBlank_append xs2000
      (hasNN_of_no_nl xs2000 (by rw [xs2000]; exact replicate_no_nl 2000 'x' (by decide)))
      (by
        rw [xs2000_concat, List.getLast?_concat]
        decide)
      ys2000,
    splitBlank_no_nl ys2000 (by rw [ys2000]; exact replicate_no_nl 2000 'y' (by decide))]

theorem pyStrip_hdr_xs : pyStrip (makeHeader ts0 ++ xs2000 ++ blankSep)
    = makeHeader ts0 ++ xs2000 := by
  apply pyStrip_wrap '📋' 'x'
    (" タスク整理レポート (".toList ++ ts0 ++ ")".toList ++ blankSep ++ xs2000)
    (makeHeader ts0 ++ List.replicate 1999 'x')
  · rw [makeHeader_cons]
    simp only [List.cons_append, List.append_assoc]
  · rw [xs2000_concat]
    simp only [List.append_assoc]
  · decide
  · decide

theorem pyStrip_ys : pyStrip (ys2000 ++ blankSep) = ys2000 := by
  apply pyStrip_wrap 'y' 'y' (List.replicate 1999 'y') (List.replicate 1999 'y')
  · exact ys2000_cons
  · exact ys2000_concat
  · decide
  · decide

theorem msgsW_eq :
    splitMessages (makeHeader ts0) repW = [makeHeader ts0 ++ xs2000, ys2000] := by
  have hlenW : repW.length = 4002 := by
    rw [repW]
    simp only [List.length_append, xs2000_length, ys2000_length, blankSep,
      List.length_cons, List.length_nil]
  have hfit1 : (makeHeader ts0).length + xs2000.length + 2 ≤ max_length := by
    rw [makeHeader_ts0_length, xs2000_length]
    decide
  have hnofit2 : ¬ (makeHeader ts0 ++ xs2000 ++ blankSep).length + ys2000.length + 2
      ≤ max_length := by
    simp only [List.length_append, makeHeader_ts0_length, xs2000_length, ys2000_length,
      blankSep, List.length_cons, List.length_nil]
    decide
  rw [splitMessages, if_neg (by rw [hlenW]; decide), splitBlank_repW,
    packLoop_fit _ _ hfit1, packLoop_nofit _ _ hnofit2, packLoop_nil]
  simp only [pyStrip_hdr_xs, pyStrip_ys]
  rw [if_pos (show (ys2000 : PyStr) ≠ [] by rw [ys2000_cons]; exact List.cons_ne_nil _ _)]
  simp

theorem C8_witness :
    1 < (splitMessages (makeHeader ts0) repW).length ∧
    ((sentMessages (makeHeader ts0) repW).length
        = (splitMessages (makeHeader ts0) repW).length ∧
     (∀ i m, 0 < i → (splitMessages (makeHeader ts0) repW).get? i = some m →
       (sentMessages (makeHeader ts0) repW).get? i
         = some (contMarker i (splitMessages (makeHeader ts0) repW).length ++ m)) ∧
     (∀ m0, (sentMessages (makeHeader ts0) repW).get? 0 = some m0 →
       ∀ j M t, m0 ≠ contMarker j M ++ t)) := by
  have h : 1 < (splitMessages (makeHeader ts0) repW).length := by
    rw [msgsW_eq]
    simp
  exact ⟨h, C8_continuation_markers ts0 repW h⟩

/-! ## Claim C10 (buffers are stripped; emptiness is not guaranteed) -/

theorem splitBlank_nn_cons (l : PyStr) :
    splitBlank ('\n' :: '\n' :: l) = [] :: splitBlank l := by
  have h := splitBlank_append [] rfl (by simp) l
  simpa using h

theorem pyStrip_idem (s : PyStr) : pyStrip (pyStrip s) = pyStrip s := by
  rcases hy : lstrip s with _ | ⟨c, t⟩
  · simp only [pyStrip, hy]
    rfl
  · have hc : isPySpace c = false := dropWhile_head_false hy
    have hps : pyStrip s = rstrip (c :: t) := by rw [pyStrip, hy]
    rcases hr : rstrip (c :: t) with _ | ⟨d, u⟩
    · exact absurd hr (rstrip_cons_ne_nil hc t)
    · have hd : d = c := by
        obtain ⟨u', hu⟩ := exists_rstrip_ext (c :: t)
        rw [hr] at hu
        have := congrArg List.head? hu
        simpa using this
      rw [hps, hr, pyStrip, lstrip_cons_of_neg (by rw [hd]; exact hc), ← hr,
        rstrip_idem, hr]

theorem pyStrip_all_space {l : PyStr} (h : ∀ c ∈ l, isPySpace c = true) :
    pyStrip l = [] := by
  rw [pyStrip, lstrip_eq_nil_iff.mpr h]
  rfl

theorem packLoop_stripped : ∀ (secs : List PyStr) (current : PyStr) (acc : List PyStr),
    (∀ m ∈ acc, pyStrip m = m) →
    ∀ m ∈ (packLoop secs current acc).1, pyStrip m = m
  | [], _, acc, hacc => by
    rw [packLoop_nil]
    exact hacc
  | s :: rest, current, acc, hacc => by
    by_cases h : current.length + s.length + 2 ≤ max_length
    · rw [packLoop_fit rest acc h]
      exact packLoop_stripped rest (current ++ s ++ blankSep) acc hacc
    · rw [packLoop_nofit rest acc h]
      apply packLoop_stripped rest (s ++ blankSep) (acc ++ [pyStrip current])
      intro m hm
      rcases List.mem_append.mp hm with hm | hm
      · exact hacc m hm
      · have hme : m = pyStrip current := by simpa using hm
        rw [hme, pyStrip_idem]

/-- C10 amended: in the multi-chunk branch every buffer of the outgoing
message list equals its own strip, i.e. carries no leading or trailing
whitespace; however only the final buffer's append is guarded by a
non-emptiness check, so mid-loop flushes may append an empty buffer. -/
theorem C10_amended (header report : PyStr) (h : max_length < report.length) :
    ∀ m ∈ splitMessages header report, pyStrip m = m := by
  intro m hm
  rw [splitMessages, if_neg (by omega)] at hm
  by_cases hp : pyStrip (packLoop (splitBlank report) header []).2 ≠ []
  · rw [if_pos hp] at hm
    rcases List.mem_append.mp hm with hm | hm
    · exact packLoop_stripped _ header [] (by simp) m hm
    · have hme : m = pyStrip (packLoop (splitBlank report) header []).2 := by
        simpa using hm
      rw [hme, pyStrip_idem]
  · rw [if_neg hp] at hm
    exact packLoop_stripped _ header [] (by simp) m hm

theorem repW_length : repW.length = 4002 := by
  rw [repW]
  simp only [List.length_append, xs2000_length, ys2000_length, blankSep,
    List.length_cons, List.length_nil]

theorem C10_witness :
    max_length < repW.length ∧
    ∀ m ∈ splitMessages (makeHeader ts0) repW, pyStrip m = m := by
  have h : max_length < repW.length := by
    rw [repW_length]
    decide
  exact ⟨h, C10_amended (makeHeader ts0) repW h⟩

theorem xs4000_cons : xs4000 = 'x' :: List.replicate 3999 'x' := by
  rw [xs4000, show (4000 : Nat) = 3999 + 1 from rfl, List.replicate_succ]

theorem xs4000_concat : xs4000 = List.replicate 3999 'x' ++ ['x'] := by
  rw [xs4000, show (4000 : Nat) = 3999 + 1 from rfl, List.replicate_succ']

theorem xs4000_length : xs4000.length = 4000 := by
  rw [xs4000]
  exact List.length_replicate _ _

theorem sp4000_length : sp4000.length = 4000 := by
  rw [sp4000]
  exact List.length_replicate _ _

theorem sp4000_all_space : ∀ c ∈ sp4000, isPySpace c = true := by
  intro c hc
  rw [sp4000] at hc
  rw [List.eq_of_mem_replicate hc]
  decide

theorem splitBlank_repE : splitBlank repE = [xs4000, [], sp4000] := by
  have hshape : repE = xs4000 ++ '\n' :: '\n' :: ('\n' :: '\n' :: sp4000) := by
    rw [repE, blankSep]
    simp only [List.append_assoc]
    rfl
  rw [hshape,
    splitBlank_append xs4000
      (hasNN_of_no_nl xs4000 (by rw [xs4000]; exact replicate_no_nl 4000 'x' (by decide)))
      (by
        rw [xs4000_concat, List.getLast?_concat]
        decide)
      ('\n' :: '\n' :: sp4000),
    splitBlank_nn_cons sp4000,
    splitBlank_no_nl sp4000 (by
      intro c hc
      rw [sp4000] at hc
      rw [List.eq_of_mem_replicate hc]
      decide)]

theorem pyStrip_xs4000 : pyStrip (xs4000 ++ blankSep) = xs4000 := by
  apply pyStrip_wrap 'x' 'x' (List.replicate 3999 'x') (List.replicate 3999 'x')
  · exact xs4000_cons
  · exact xs4000_concat
  · decide
  · decide

/-- C10 fails on the code: for the report `'x' * 4000` + blank line +
blank line + `' ' * 4000`, the packing loop's unguarded mid-loop
`messages.append(current_message.strip())` appends the empty string to the
outgoing message list (the whitespace-only pending content strips to
nothing), so a blank message is queued for sending. -/
theorem C10_counterexample :
    ([] : PyStr) ∈ splitMessages (makeHeader ts0) repE ∧ max_length < repE.length := by
  have hlen : repE.length = 8004 := by
    rw [repE]
    simp only [List.length_append, xs4000_length, sp4000_length, blankSep,
      List.length_cons, List.length_nil]
  have hnofit1 : ¬ (makeHeader ts0).length + xs4000.length + 2 ≤ max_length := by
    rw [makeHeader_ts0_length, xs4000_length]
    decide
  have hnofit2 : ¬ (xs4000 ++ blankSep).length + ([] : PyStr).length + 2 ≤ max_length := by
    simp only [List.length_append, xs4000_length, blankSep, List.length_cons,
      List.length_nil]
    decide
  have hnofit3 : ¬ (([] : PyStr) ++ blankSep).length + sp4000.length + 2 ≤ max_length := by
    simp only [List.length_append, sp4000_length, blankSep, List.length_cons,
      List.length_nil]
    decide
  have hfinal : pyStrip (sp4000 ++ blankSep) = [] := by
    apply pyStrip_all_space
    intro c hc
    rcases List.mem_append.mp hc with hc | hc
    · exact sp4000_all_space c hc
    · have : c = '\n' := by simpa [blankSep] using hc
      rw [this]
      decide
  constructor
  · rw [splitMessages, if_neg (by rw [hlen]; decide), splitBlank_repE,
      packLoop_nofit _ _ hnofit1, packLoop_nofit _ _ hnofit2,
      packLoop_nofit _ _ hnofit3, packLoop_nil]
    rw [if_neg (by rw [hfinal]; simp)]
    rw [pyStrip_xs4000]
    have hnn : pyStrip (([] : PyStr) ++ blankSep) = [] := by
      apply pyStrip_all_space
      intro c hc
      have : c = '\n' := by simpa [blankSep] using hc
      rw [this]
      decide
    rw [hnn]
    simp
  · rw [hlen]
    decide

/-! ## Claim C3 (section preservation) -/

theorem pyStrip_fix_lstrip {s : PyStr} (hs : pyStrip s = s) : lstrip s = s := by
  have h1 : (pyStrip s).length ≤ (lstrip s).length := rstrip_length_le _
  have h2 : (lstrip s).length ≤ s.length := lstrip_length_le _
  have h3 : (pyStrip s).length = s.length := by rw [hs]
  have hlen : (lstrip s).length = s.length := by omega
  exact (List.dropWhile_suffix isPySpace).sublist.eq_of_length hlen

theorem pyStrip_fix_rstrip {s : PyStr} (hs : pyStrip s = s) : rstrip s = s := by
  have hl := pyStrip_fix_lstrip hs
  rw [pyStrip, hl] at hs
  exact hs

theorem clean_head {s : PyStr} (hne : s ≠ []) (hs : pyStrip s = s) :
    ∃ c t, s = c :: t ∧ isPySpace c = false := by
  have hl := pyStrip_fix_lstrip hs
  rcases s with _ | ⟨c, t⟩
  · exact absurd rfl hne
  · refine ⟨c, t, rfl, ?_⟩
    cases hb : isPySpace c
    · rfl
    · exfalso
      rw [lstrip_cons_of_pos hb] at hl
      have hle := lstrip_length_le t
      have h2 := congrArg List.length hl
      simp only [List.length_cons] at h2
      omega

theorem rstrip_append_pos {d : Char} (h : isPySpace d = true) (l : PyStr) :
    rstrip (l ++ [d]) = rstrip l := by
  simp [rstrip, List.dropWhile_cons, h]

theorem clean_last {s : PyStr} (hne : s ≠ []) (hs : pyStrip s = s) :
    ∃ l' d, s = l' ++ [d] ∧ isPySpace d = false := by
  have hr := pyStrip_fix_rstrip hs
  rcases List.eq_nil_or_concat s with hcat | ⟨l', d, hcat⟩
  · exact absurd hcat hne
  · rw [List.concat_eq_append] at hcat
    refine ⟨l', d, hcat, ?_⟩
    cases hb : isPySpace d
    · rfl
    · exfalso
      rw [hcat, rstrip_append_pos hb] at hr
      have hle := rstrip_length_le l'
      have h2 := congrArg List.length hr
      simp only [List.length_append, List.length_cons, List.length_nil] at h2
      omega

theorem clean_getLast {s : PyStr} (hne : s ≠ []) (hs : pyStrip s = s) :
    s.getLast? ≠ some '\n' := by
  obtain ⟨l', d, hcat, hd⟩ := clean_last hne hs
  rw [hcat, List.getLast?_concat]
  intro hcon
  have hdn : d = '\n' := by simpa using hcon
  rw [hdn] at hd
  exact absurd hd (by decide)

/-- Pieces produced by `splitBlank` never contain a blank line, and the
first piece is empty or starts with the input's first character. -/
theorem splitBlank_pieces : ∀ (l : PyStr),
    (∀ s ∈ splitBlank l, hasNN s = false) ∧
    (∀ s t, splitBlank l = s :: t → s = [] ∨ s.head? = l.head?)
  | [] => by
    refine ⟨?_, ?_⟩
    · intro s hs
      have hsn : s = [] := by simpa [splitBlank] using hs
      rw [hsn]
      rfl
    · intro s t hst
      exact Or.inl (List.cons_eq_cons.mp hst).1.symm
  | [c] => by
    refine ⟨?_, ?_⟩
    · intro s hs
      have hsn : s = [c] := by simpa [splitBlank] using hs
      rw [hsn]
      rfl
    · intro s t hst
      right
      rw [← (List.cons_eq_cons.mp hst).1]
  | c₁ :: c₂ :: rest => by
    have ihtail := splitBlank_pieces (c₂ :: rest)
    have ihskip := splitBlank_pieces rest
    rw [splitBlank_cons_cons]
    by_cases h : c₁ = '\n' ∧ c₂ = '\n'
    · rw [if_pos h]
      refine ⟨?_, ?_⟩
      · intro s hs
        rcases List.mem_cons.mp hs with hs | hs
        · rw [hs]
          rfl
        · exact ihskip.1 s hs
      · intro s t hst
        exact Or.inl (List.cons_eq_cons.mp hst).1.symm
    · rw [if_neg h]
      rcases hsb : splitBlank (c₂ :: rest) with _ | ⟨s₀, ss⟩
      · exact absurd hsb (splitBlank_ne_nil _)
      · have hpair : (decide (c₁ = '\n') && decide (c₂ = '\n')) = false := by
          by_cases hc1 : c₁ = '\n'
          · by_cases hc2 : c₂ = '\n'
            · exact absurd ⟨hc1, hc2⟩ h
            · simp [hc2]
          · simp [hc1]
        refine ⟨?_, ?_⟩
        · intro s hs
          rcases List.mem_cons.mp hs with hs | hs
          · subst hs
            rcases ihtail.2 s₀ ss hsb with hs₀ | hs₀
            · subst hs₀
              rfl
            · rcases s₀ with _ | ⟨d, s₀'⟩
              · rfl
              · have hdc : d = c₂ := by simpa using hs₀
                subst hdc
                rw [hasNN, hpair]
                have h2 : hasNN (d :: s₀') = false :=
                  ihtail.1 (d :: s₀') (by rw [hsb]; exact List.mem_cons_self _ _)
                simpa using h2
          · exact ihtail.1 s (by rw [hsb]; exact List.mem_cons_of_mem _ hs)
        · intro s t hst
          right
          rw [← (List.cons_eq_cons.mp hst).1]
          rfl

theorem splitBlank_joinNN : ∀ (g : List PyStr), g ≠ [] →
    (∀ s ∈ g, hasNN s = false ∧ s.getLast? ≠ some '\n') →
    splitBlank (joinNN g) = g
  | [], hne, _ => absurd rfl hne
  | [s], _, hg => by
    rw [joinNN]
    exact splitBlank_no_nn s (hg s (by simp)).1
  | s :: r :: rest, _, hg => by
    rw [joinNN,
      splitBlank_append s (hg s (by simp)).1 (hg s (by simp)).2 (joinNN (r :: rest)),
      splitBlank_joinNN (r :: rest) (by simp) (fun x hx => hg x (List.mem_cons_of_mem _ hx))]

theorem joinNN_first : ∀ (s : PyStr) (g : List PyStr), ∃ X, joinNN (s :: g) = s ++ X
  | s, [] => ⟨[], by rw [joinNN]; simp⟩
  | _, _ :: _ => ⟨_, rfl⟩

theorem joinNN_last : ∀ (g : List PyStr) (s : PyStr), ∃ Y, joinNN (g ++ [s]) = Y ++ s
  | [], s => ⟨[], by rw [List.nil_append, joinNN]; rfl⟩
  | [r], s => ⟨r ++ ['\n', '\n'], by rw [List.cons_append, List.nil_append, joinNN, joinNN]; simp⟩
  | r :: r' :: rest, s => by
    obtain ⟨Y, hY⟩ := joinNN_last (r' :: rest) s
    refine ⟨r ++ ['\n', '\n'] ++ Y, ?_⟩
    rw [List.cons_append] at hY
    show joinNN (r :: r' :: (rest ++ [s])) = r ++ ['\n', '\n'] ++ Y ++ s
    rw [joinNN, hY]
    simp

theorem bundle_cons (s : PyStr) (g : List PyStr) :
    bundle (s :: g) = s ++ blankSep ++ bundle g := by
  simp [bundle]

theorem bundle_append_one (g : List PyStr) (s : PyStr) :
    bundle (g ++ [s]) = bundle g ++ s ++ blankSep := by
  simp [bundle, List.append_assoc]

theorem bundle_single (s : PyStr) : bundle [s] = s ++ blankSep := by
  simp [bundle]

theorem bundle_eq_joinNN : ∀ (g : List PyStr), g ≠ [] → bundle g = joinNN g ++ blankSep
  | [], hne => absurd rfl hne
  | [s], _ => by rw [bundle_single, joinNN]
  | s :: r :: rest, _ => by
    rw [bundle_cons, joinNN, bundle_eq_joinNN (r :: rest) (by simp)]
    simp [blankSep, List.append_assoc]

theorem pyStrip_bundle (g : List PyStr) (hne : g ≠ [])
    (hg : ∀ s ∈ g, s ≠ [] ∧ pyStrip s = s) :
    pyStrip (bundle g) = joinNN g := by
  rcases g with _ | ⟨s, g'⟩
  · exact absurd rfl hne
  · obtain ⟨c, t, hct, hc⟩ := clean_head (hg s (by simp)).1 (hg s (by simp)).2
    obtain ⟨X, hX⟩ := joinNN_first s g'
    rcases List.eq_nil_or_concat (s :: g') with hcat | ⟨g'', sl, hcat⟩
    · exact absurd hcat (by simp)
    · rw [List.concat_eq_append] at hcat
      have hslmem : sl ∈ s :: g' := by
        rw [hcat]
        simp
      obtain ⟨l', d, hld, hd⟩ := clean_last (hg sl hslmem).1 (hg sl hslmem).2
      obtain ⟨Y, hY⟩ := joinNN_last g'' sl
      rw [bundle_eq_joinNN (s :: g') (by simp)]
      apply pyStrip_wrap c d (t ++ X) (Y ++ l')
      · rw [hX, hct]
        rfl
      · rw [hcat, hY, hld]
        simp
      · exact hc
      · exact hd

theorem joinNN_ne_nil (g : List PyStr) (hne : g ≠ [])
    (hg : ∀ s ∈ g, s ≠ [] ∧ pyStrip s = s) :
    joinNN g ≠ [] := by
  rcases g with _ | ⟨s, g'⟩
  · exact absurd rfl hne
  · obtain ⟨c, t, hct, _⟩ := clean_head (hg s (by simp)).1 (hg s (by simp)).2
    obtain ⟨X, hX⟩ := joinNN_first s g'
    rw [hX, hct]
    simp

theorem splitMessages_multi (header report : PyStr) (h : ¬ report.length ≤ max_length) :
    splitMessages header report
      = flushBuffers (packLoop (splitBlank report) header []) := by
  rw [splitMessages, if_neg h, flushBuffers]
  by_cases hp : pyStrip (packLoop (splitBlank report) header []).2 ≠ []
  · rw [if_pos hp, if_pos hp]
  · rw [if_neg hp, if_neg hp]
    simp

/-- After the first flush, the packing loop turns the remaining sections
into a sequence of groups, each emitted as the strip of its bundle. -/
theorem packLoop_post (SP : List PyStr)
    (hSP : ∀ s ∈ SP, s ≠ [] ∧ pyStrip s = s) :
    ∀ (rem : List PyStr) (gcur : List PyStr),
      (∀ s ∈ rem, s ∈ SP) → (∀ s ∈ gcur, s ∈ SP) → gcur ≠ [] →
      ∃ gs : List (List PyStr),
        flushBuffers (packLoop rem (bundle gcur) [])
          = gs.map (fun g => pyStrip (bundle g)) ∧
        gs.flatten = gcur ++ rem ∧
        ∀ g ∈ gs, g ≠ [] ∧ ∀ s ∈ g, s ∈ SP
  | [], gcur, _, hgcur, hgne => by
    refine ⟨[gcur], ?_, by simp, ?_⟩
    · rw [packLoop_nil, flushBuffers]
      have hnn : pyStrip (bundle gcur) ≠ [] := by
        rw [pyStrip_bundle gcur hgne (fun s hs => hSP s (hgcur s hs))]
        exact joinNN_ne_nil gcur hgne (fun s hs => hSP s (hgcur s hs))
      rw [if_pos hnn]
      simp
    · intro g hgmem
      have : g = gcur := by simpa using hgmem
      rw [this]
      exact ⟨hgne, hgcur⟩
  | s :: rest, gcur, hrem, hgcur, hgne => by
    by_cases h : (bundle gcur).length + s.length + 2 ≤ max_length
    · rw [packLoop_fit rest [] h]
      have hb : bundle gcur ++ s ++ blankSep = bundle (gcur ++ [s]) := by
        rw [bundle_append_one]
      rw [hb]
      obtain ⟨gs, h1, h2, h3⟩ := packLoop_post SP hSP rest (gcur ++ [s])
        (fun x hx => hrem x (List.mem_cons_of_mem _ hx))
        (by
          intro x hx
          rcases List.mem_append.mp hx with hx | hx
          · exact hgcur x hx
          · have : x = s := by simpa using hx
            rw [this]
            exact hrem s (by simp))
        (by simp)
      refine ⟨gs, h1, ?_, h3⟩
      rw [h2]
      simp
    · rw [packLoop_nofit rest [] h]
      rw [packLoop_acc rest (s ++ blankSep) ([] ++ [pyStrip (bundle gcur)])]
      have hbs : s ++ blankSep = bundle [s] := (bundle_single s).symm
      rw [hbs]
      obtain ⟨gs, h1, h2, h3⟩ := packLoop_post SP hSP rest [s]
        (fun x hx => hrem x (List.mem_cons_of_mem _ hx))
        (by
          intro x hx
          have : x = s := by simpa using hx
          rw [this]
          exact hrem s (by simp))
        (by simp)
      refine ⟨gcur :: gs, ?_, ?_, ?_⟩
      · rw [flushBuffers] at h1 ⊢
        simp only [List.map_cons]
        rw [← h1]
        simp
      · rw [List.flatten_cons, h2]
        rfl
      · intro g hgmem
        rcases List.mem_cons.mp hgmem with hgmem | hgmem
        · rw [hgmem]
          exact ⟨hgne, hgcur⟩
        · exact h3 g hgmem

/-- Before the first flush the chunk under construction always starts
with the header; the loop then emits it and continues as in
`packLoop_post`. -/
theorem packLoop_pre (SP : List PyStr)
    (hSP : ∀ s ∈ SP, s ≠ [] ∧ pyStrip s = s)
    (header : PyStr) (hhead : ∃ c t, header = c :: t ∧ isPySpace c = false) :
    ∀ (rem : List PyStr) (g0 : List PyStr),
      (∀ s ∈ rem, s ∈ SP) → (∀ s ∈ g0, s ∈ SP) →
      ∃ (g0' : List PyStr) (gs : List (List PyStr)),
        flushBuffers (packLoop rem (header ++ bundle g0) [])
          = pyStrip (header ++ bundle g0') :: gs.map (fun g => pyStrip (bundle g)) ∧
        g0' ++ gs.flatten = g0 ++ rem ∧
        (∀ s ∈ g0', s ∈ SP) ∧ ∀ g ∈ gs, g ≠ [] ∧ ∀ s ∈ g, s ∈ SP
  | [], g0, _, hg0 => by
    refine ⟨g0, [], ?_, by simp, hg0, by simp⟩
    rw [packLoop_nil, flushBuffers]
    have hnn : pyStrip (header ++ bundle g0) ≠ [] := by
      obtain ⟨c, t, hct, hc⟩ := hhead
      rw [hct, List.cons_append]
      obtain ⟨t2, ht2⟩ := pyStrip_cons_head (t ++ bundle g0) hc
      rw [ht2]
      simp
    rw [if_pos hnn]
    simp
  | s :: rest, g0, hrem, hg0 => by
    by_cases h : (header ++ bundle g0).length + s.length + 2 ≤ max_length
    · rw [packLoop_fit rest [] h]
      have hb : header ++ bundle g0 ++ s ++ blankSep = header ++ bundle (g0 ++ [s]) := by
        rw [bundle_append_one]
        simp [List.append_assoc]
      rw [hb]
      obtain ⟨g0', gs, h1, h2, h3, h4⟩ := packLoop_pre SP hSP header hhead rest (g0 ++ [s])
        (fun x hx => hrem x (List.mem_cons_of_mem _ hx))
        (by
          intro x hx
          rcases List.mem_append.mp hx with hx | hx
          · exact hg0 x hx
          · have : x = s := by simpa using hx
            rw [this]
            exact hrem s (by simp))
      refine ⟨g0', gs, h1, ?_, h3, h4⟩
      rw [h2]
      simp
    · rw [packLoop_nofit rest [] h,
        packLoop_acc rest (s ++ blankSep) ([] ++ [pyStrip (header ++ bundle g0)]),
        show s ++ blankSep = bundle [s] from (bundle_single s).symm]
      obtain ⟨gs, h1, h2, h3⟩ := packLoop_post SP hSP rest [s]
        (fun x hx => hrem x (List.mem_cons_of_mem _ hx))
        (by
          intro x hx
          have : x = s := by simpa using hx
          rw [this]
          exact hrem s (by simp))
        (by simp)
      refine ⟨g0, gs, ?_, ?_, hg0, h3⟩
      · rw [flushBuffers] at h1 ⊢
        rw [← h1]
        simp
      · rw [h2]
        rfl

theorem recoverChunk_of_ne {c : PyStr} (h : c ≠ []) : recoverChunk c = splitBlank c := by
  rw [recoverChunk, if_neg h]

theorem pyStrip_pre_bundle (header : PyStr)
    (hhead : ∃ c t, header = c :: t ∧ isPySpace c = false)
    (g : List PyStr) (hne : g ≠ [])
    (hg : ∀ s ∈ g, s ≠ [] ∧ pyStrip s = s) :
    pyStrip (header ++ bundle g) = header ++ joinNN g := by
  obtain ⟨c, t, hct, hc⟩ := hhead
  rcases g with _ | ⟨s, g'⟩
  · exact absurd rfl hne
  · rcases List.eq_nil_or_concat (s :: g') with hcat | ⟨g'', sl, hcat⟩
    · simp at hcat
    · rw [List.concat_eq_append] at hcat
      have hslmem : sl ∈ s :: g' := by
        rw [hcat]
        simp
      obtain ⟨l', d, hld, hd⟩ := clean_last (hg sl hslmem).1 (hg sl hslmem).2
      obtain ⟨Y, hY⟩ := joinNN_last g'' sl
      rw [bundle_eq_joinNN (s :: g') (by simp), ← List.append_assoc]
      apply pyStrip_wrap c d (t ++ joinNN (s :: g')) (header ++ Y ++ l')
      · rw [hct]
        rfl
      · rw [hcat, hY, hld]
        simp
      · exact hc
      · exact hd

/-- Recovering the sections from the characterized chunk list gives back
exactly the grouped sections, in order. -/
theorem recover_chunks (header : PyStr)
    (hhead : ∃ c t, header = c :: t ∧ isPySpace c = false)
    (g0 : List PyStr) (gs : List (List PyStr))
    (hg0 : ∀ s ∈ g0, s ≠ [] ∧ pyStrip s = s ∧ hasNN s = false)
    (hgs : ∀ g ∈ gs, g ≠ [] ∧ ∀ s ∈ g, s ≠ [] ∧ pyStrip s = s ∧ hasNN s = false) :
    recoverSections header
      (pyStrip (header ++ bundle g0) :: gs.map (fun g => pyStrip (bundle g)))
      = g0 ++ gs.flatten := by
  rw [recoverSections]
  have hchunk0 : recoverChunk ((pyStrip (header ++ bundle g0)).drop header.length) = g0 := by
    by_cases hne : g0 = []
    · subst hne
      rw [show bundle ([] : List PyStr) = [] from rfl, List.append_nil,
        List.drop_eq_nil_of_le (pyStrip_length_le header)]
      rfl
    · have hg0' : ∀ s ∈ g0, s ≠ [] ∧ pyStrip s = s :=
        fun s hs => ⟨(hg0 s hs).1, (hg0 s hs).2.1⟩
      rw [pyStrip_pre_bundle header hhead g0 hne hg0', List.drop_left,
        recoverChunk_of_ne (joinNN_ne_nil g0 hne hg0')]
      exact splitBlank_joinNN g0 hne
        (fun s hs => ⟨(hg0 s hs).2.2, clean_getLast (hg0 s hs).1 (hg0 s hs).2.1⟩)
  have htail : ((gs.map (fun g => pyStrip (bundle g))).map recoverChunk).flatten
      = gs.flatten := by
    induction gs with
    | nil => rfl
    | cons g rest ih =>
      have hgne := (hgs g (List.mem_cons_self _ _)).1
      have hgcl := (hgs g (List.mem_cons_self _ _)).2
      have hg2 : ∀ s ∈ g, s ≠ [] ∧ pyStrip s = s :=
        fun s hs => ⟨(hgcl s hs).1, (hgcl s hs).2.1⟩
      simp only [List.map_cons, List.flatten_cons]
      rw [ih (fun x hx => hgs x (List.mem_cons_of_mem _ hx))]
      congr 1
      rw [pyStrip_bundle g hgne hg2, recoverChunk_of_ne (joinNN_ne_nil g hgne hg2)]
      exact splitBlank_joinNN g hgne
        (fun s hs => ⟨(hgcl s hs).2.2, clean_getLast (hgcl s hs).1 (hgcl s hs).2.1⟩)
  rw [hchunk0, htail]

/-- C3 amended: for a report whose blank-line sections are all non-empty
and free of leading/trailing whitespace, concatenating the splitter's
buffers after dropping the injected header (the continuation markers are
injected only at send time) and re-splitting on blank lines reproduces
the original sections exactly, in order.  In general (whitespace-edged
sections), the `strip()` applied at each flush alters flushed sections,
so only this restricted form holds. -/
theorem C3_amended (ts report : PyStr) (sections : List PyStr)
    (hsec : splitBlank report = sections)
    (hclean : ∀ s ∈ sections, s ≠ [] ∧ pyStrip s = s) :
    recoverSections (makeHeader ts) (splitMessages (makeHeader ts) report) = sections := by
  have hhead : ∃ c t, makeHeader ts = c :: t ∧ isPySpace c = false :=
    ⟨'📋', _, makeHeader_cons ts, by decide⟩
  by_cases h : report.length ≤ max_length
  · rw [splitMessages_short _ h, recoverSections]
    have hrne : report ≠ [] := by
      intro hr
      subst hr
      have hmem : ([] : PyStr) ∈ sections := by
        rw [← hsec]
        simp [splitBlank]
      exact (hclean [] hmem).1 rfl
    rw [List.drop_left, recoverChunk_of_ne hrne, hsec]
    simp
  · have hclean3 : ∀ s ∈ sections, s ≠ [] ∧ pyStrip s = s ∧ hasNN s = false := by
      intro s hs
      refine ⟨(hclean s hs).1, (hclean s hs).2, ?_⟩
      rw [← hsec] at hs
      exact (splitBlank_pieces report).1 s hs
    rw [splitMessages_multi _ _ h, hsec,
      show packLoop sections (makeHeader ts) []
          = packLoop sections (makeHeader ts ++ bundle []) [] by
        rw [show bundle ([] : List PyStr) = [] from rfl, List.append_nil]]
    obtain ⟨g0', gs, h1, h2, h3, h4⟩ := packLoop_pre sections
      (fun s hs => hclean s hs) (makeHeader ts) hhead sections []
      (fun s hs => hs) (by simp)
    rw [h1,
      recover_chunks (makeHeader ts) hhead g0' gs
        (fun s hs => hclean3 s (h3 s hs))
        (fun g hg => ⟨(h4 g hg).1, fun s hs => hclean3 s ((h4 g hg).2 s hs)⟩)]
    simpa using h2

theorem C3_witness :
    splitBlank "a\n\nb".toList = [['a'], ['b']] ∧
    (∀ s ∈ [(['a'] : PyStr), ['b']], s ≠ [] ∧ pyStrip s = s) ∧
    recoverSections (makeHeader ts0) (splitMessages (makeHeader ts0) "a\n\nb".toList)
      = [['a'], ['b']] := by
  have h1 : splitBlank "a\n\nb".toList = [['a'], ['b']] := by decide
  have h2 : ∀ s ∈ [(['a'] : PyStr), ['b']], s ≠ [] ∧ pyStrip s = s := by decide
  exact ⟨h1, h2, C3_amended ts0 "a\n\nb".toList [['a'], ['b']] h1 h2⟩

theorem xs3900_cons : xs3900 = 'x' :: List.replicate 3899 'x' := by
  rw [xs3900, show (3900 : Nat) = 3899 + 1 from rfl, List.replicate_succ]

theorem xs3900_concat : xs3900 = List.replicate 3899 'x' ++ ['x'] := by
  rw [xs3900, show (3900 : Nat) = 3899 + 1 from rfl, List.replicate_succ']

theorem xs3900_length : xs3900.length = 3900 := by
  rw [xs3900]
  exact List.length_replicate _ _

theorem splitBlank_repS : splitBlank repS = [xs3900, [' ', 'b']] := by
  have hshape : repS = xs3900 ++ '\n' :: '\n' :: [' ', 'b'] := by
    rw [repS, blankSep]
    simp [List.append_assoc]
  rw [hshape,
    splitBlank_append xs3900
      (hasNN_of_no_nl xs3900 (by rw [xs3900]; exact replicate_no_nl 3900 'x' (by decide)))
      (by
        rw [xs3900_concat, List.getLast?_concat]
        decide)
      [' ', 'b'],
    splitBlank_no_nl [' ', 'b'] (by decide)]

theorem pyStrip_xs3900 : pyStrip (xs3900 ++ blankSep) = xs3900 := by
  apply pyStrip_wrap 'x' 'x' (List.replicate 3899 'x') (List.replicate 3899 'x')
  · exact xs3900_cons
  · exact xs3900_concat
  · decide
  · decide

theorem msgsS_eq :
    splitMessages (makeHeader ts0) repS
      = [pyStrip (makeHeader ts0), xs3900, ['b']] := by
  have hlenS : repS.length = 3904 := by
    rw [repS]
    simp only [List.length_append, xs3900_length, blankSep, List.length_cons,
      List.length_nil]
  have hnofit1 : ¬ (makeHeader ts0).length + xs3900.length + 2 ≤ max_length := by
    rw [makeHeader_ts0_length, xs3900_length]
    decide
  have hnofit2 : ¬ (xs3900 ++ blankSep).length + ([' ', 'b'] : PyStr).length + 2
      ≤ max_length := by
    simp only [List.length_append, xs3900_length, blankSep, List.length_cons,
      List.length_nil]
    decide
  have hfin : pyStrip (([' ', 'b'] : PyStr) ++ blankSep) = ['b'] := by decide
  rw [splitMessages, if_neg (by rw [hlenS]; decide), splitBlank_repS,
    packLoop_nofit _ _ hnofit1, packLoop_nofit _ _ hnofit2, packLoop_nil]
  rw [if_pos (by rw [hfin]; simp)]
  rw [hfin, pyStrip_xs3900]
  simp

/-- C3 fails on the code: for the report `'x' * 3900` + blank line +
`" b"`, the second section is flushed through
`current_message.strip()`, which removes its leading space; the recovered
sections are `['x'*3900, "b"]`, not the original `['x'*3900, " b"]`
(and no section exceeds `max_length`, so the documented oversized-section
exception does not apply). -/
theorem C3_counterexample :
    recoverSections (makeHeader ts0) (splitMessages (makeHeader ts0) repS)
      ≠ splitBlank repS ∧
    ∀ s ∈ splitBlank repS, s.length ≤ max_length := by
  constructor
  · rw [msgsS_eq, splitBlank_repS, recoverSections]
    have h0 : recoverChunk ((pyStrip (makeHeader ts0)).drop (makeHeader ts0).length)
        = [] := by
      rw [List.drop_eq_nil_of_le (pyStrip_length_le _)]
      rfl
    rw [h0]
    have h1 : recoverChunk xs3900 = [xs3900] := by
      rw [recoverChunk_of_ne (by rw [xs3900_cons]; exact List.cons_ne_nil _ _),
        splitBlank_no_nl xs3900 (by rw [xs3900]; exact replicate_no_nl 3900 'x' (by decide))]
    have h2 : recoverChunk ['b'] = [['b']] := by decide
    simp only [List.map_cons, List.map_nil, h1, h2, List.flatten_cons,
      List.flatten_nil, List.nil_append, List.append_nil]
    intro heq
    have h3 := congrArg (fun l => l.get? 1) heq
    simp only [List.singleton_append, List.get?_cons_succ, List.get?_cons_zero,
      Option.some_inj] at h3
    have : (['b'] : PyStr) ≠ [' ', 'b'] := by decide
    exact this h3
  · intro s hs
    rw [splitBlank_repS] at hs
    rcases List.mem_cons.mp hs with hs | hs
    · rw [hs, xs3900_length]
      decide
    · have : s = [' ', 'b'] := by simpa using hs
      rw [this]
      decide
